import Mathlib

/-!
# Verification of the PatientData access-control ledger

Shallow embedding of `contracts/PatientData.sol`: a patient owns one medical
record, grants and revokes doctor read access, and every mutating operation
emits an event.  Solidity `address` is modelled as `Nat` (`0` is the zero
address), `mapping` as a total function with the default struct as initial
value, `require` failure as `Except.error` (a revert leaves the state
unchanged, captured by `applyOp`), and the chain's event log as the list of
emitted events in emission order.
-/

namespace PatientData

abbrev Address := Nat

/-- The `MedicalRecord` struct.  The Solidity field `exists` is named
`recExists` here because `exists` is reserved in Lean. -/
structure MedicalRecord where
  name : String
  age : Nat
  medicalHistory : String
  ipfsHash : String
  timestamp : Nat
  recExists : Bool
deriving Repr, DecidableEq

/-- The `AccessPermission` struct. -/
structure AccessPermission where
  doctor : Address
  granted : Bool
  timestamp : Nat
deriving Repr, DecidableEq

/-- Default value of a `MedicalRecord` storage slot (all mapping entries start
at the zero struct). -/
def emptyRecord : MedicalRecord :=
  { name := "", age := 0, medicalHistory := "", ipfsHash := "", timestamp := 0,
    recExists := false }

/-- Default value of an `AccessPermission` storage slot. -/
def emptyPermission : AccessPermission :=
  { doctor := 0, granted := false, timestamp := 0 }

/-- One emitted Solidity event, with its payload. -/
inductive Event where
  | MedicalRecordAdded (patient : Address) (name : String) (age : Nat)
      (timestamp : Nat)
  | AccessGranted (patient : Address) (doctor : Address) (timestamp : Nat)
  | AccessRevoked (patient : Address) (doctor : Address) (timestamp : Nat)
  | RecordAccessed (patient : Address) (doctor : Address) (timestamp : Nat)
deriving Repr, DecidableEq

/-- The revert reasons of the contract, grouped by the spec's error taxonomy:
the three validation `require`s of `addMedicalRecord` are `ValidationError`,
`"Patient record does not exist"` is `NotFound`, `"Access denied"` is
`AccessDenied`, `"Invalid doctor address"` (zero address) is
`InvalidDoctorAddress`, `"Cannot grant access to yourself"` is
`InvalidDoctor`, `"Access already granted"` is `AlreadyGranted`,
`"Access not granted"` is `NotGranted`, and the `onlyPatient` modifier's
`"Only patient can perform this action"` is `OnlyPatient`. -/
inductive ContractError where
  | OnlyPatient
  | NotFound
  | AccessDenied
  | ValidationError
  | InvalidDoctorAddress
  | InvalidDoctor
  | AlreadyGranted
  | NotGranted
deriving Repr, DecidableEq

/-- The contract storage plus the chain's event log (in emission order). -/
structure ContractState where
  patientRecords : Address → MedicalRecord
  doctorAccess : Address → Address → AccessPermission
  patientDoctors : Address → List Address
  events : List Event

/-- Freshly deployed contract: every mapping entry is the zero struct and no
event has been emitted. -/
def initialState : ContractState :=
  { patientRecords := fun _ => emptyRecord,
    doctorAccess := fun _ _ => emptyPermission,
    patientDoctors := fun _ => [],
    events := [] }

/-- `true` on `Except.ok`, mirroring "the call did not revert". -/
def isOkB {α : Type} : Except ContractError α → Bool
  | .ok _ => true
  | .error _ => false

/-- The `hasAccess(_patient)` modifier condition:
`msg.sender == _patient || (doctorAccess[_patient][msg.sender].granted &&
doctorAccess[_patient][msg.sender].doctor == msg.sender)`. -/
def hasAccessCheck (s : ContractState) (sender patient : Address) : Bool :=
  sender == patient ||
    ((s.doctorAccess patient sender).granted &&
      (s.doctorAccess patient sender).doctor == sender)

/-- `addMedicalRecord(_name, _age, _medicalHistory, _ipfsHash)`: validates
name non-empty, `0 < age < 150`, history non-empty, then overwrites the
caller's record slot and emits `MedicalRecordAdded`. -/
def addMedicalRecord (s : ContractState) (sender : Address) (name : String)
    (age : Nat) (medicalHistory ipfsHash : String) (blockTimestamp : Nat) :
    Except ContractError ContractState :=
  if name = "" then .error .ValidationError
  else if ¬(0 < age ∧ age < 150) then .error .ValidationError
  else if medicalHistory = "" then .error .ValidationError
  else .ok
    { s with
      patientRecords := fun p =>
        if p = sender then
          { name := name, age := age, medicalHistory := medicalHistory,
            ipfsHash := ipfsHash, timestamp := blockTimestamp,
            recExists := true }
        else s.patientRecords p,
      events := s.events ++
        [Event.MedicalRecordAdded sender name age blockTimestamp] }

/-- `grantAccess(_doctor)`: modifiers `onlyPatient(msg.sender)` (vacuous) and
`patientExists(msg.sender)`, then requires a nonzero doctor distinct from the
caller whose permission is not already granted; writes the permission entry,
pushes the doctor onto `patientDoctors[msg.sender]`, emits `AccessGranted`. -/
def grantAccess (s : ContractState) (sender doctor : Address)
    (blockTimestamp : Nat) : Except ContractError ContractState :=
  if sender ≠ sender then .error .OnlyPatient
  else if ¬(s.patientRecords sender).recExists then .error .NotFound
  else if doctor = 0 then .error .InvalidDoctorAddress
  else if doctor = sender then .error .InvalidDoctor
  else if (s.doctorAccess sender doctor).granted then .error .AlreadyGranted
  else .ok
    { s with
      doctorAccess := fun p d =>
        if p = sender ∧ d = doctor then
          { doctor := doctor, granted := true, timestamp := blockTimestamp }
        else s.doctorAccess p d,
      patientDoctors := fun p =>
        if p = sender then s.patientDoctors sender ++ [doctor]
        else s.patientDoctors p,
      events := s.events ++ [Event.AccessGranted sender doctor blockTimestamp] }

/-- Index of the first occurrence of `target`, scanning from the front —
the search order of the removal loop in `revokeAccess`. -/
def firstIndexOf : List Address → Address → Option Nat
  | [], _ => none
  | x :: xs, t => if x = t then some 0 else (firstIndexOf xs t).map (· + 1)

/-- The removal loop of `revokeAccess`: find the first occurrence of
`target`, overwrite it with the last element (`doctors[i] =
doctors[doctors.length - 1]`), then `pop()` the last element; if `target`
is absent the loop leaves the array unchanged.  (The `getD` default is never
used: a found index implies the list is nonempty.) -/
def swapPopRemove (l : List Address) (target : Address) : List Address :=
  match firstIndexOf l target with
  | none => l
  | some i => (l.set i (l.getD (l.length - 1) 0)).dropLast

/-- `revokeAccess(_doctor)`: modifiers `onlyPatient(msg.sender)` (vacuous) and
`patientExists(msg.sender)`, then requires the permission to be granted; it
sets only the `granted` flag to `false` (the entry's `timestamp` keeps the
grant time), removes the doctor from the list by swap-and-pop, and emits
`AccessRevoked`. -/
def revokeAccess (s : ContractState) (sender doctor : Address)
    (blockTimestamp : Nat) : Except ContractError ContractState :=
  if sender ≠ sender then .error .OnlyPatient
  else if ¬(s.patientRecords sender).recExists then .error .NotFound
  else if ¬(s.doctorAccess sender doctor).granted then .error .NotGranted
  else .ok
    { s with
      doctorAccess := fun p d =>
        if p = sender ∧ d = doctor then
          { s.doctorAccess sender doctor with granted := false }
        else s.doctorAccess p d,
      patientDoctors := fun p =>
        if p = sender then swapPopRemove (s.patientDoctors sender) doctor
        else s.patientDoctors p,
      events := s.events ++ [Event.AccessRevoked sender doctor blockTimestamp] }

/-- `getMedicalRecord(_patient)`: the unlogged `view` read — modifiers
`hasAccess(_patient)` then `patientExists(_patient)`, in that order, and no
event emission. -/
def getMedicalRecord (s : ContractState) (sender patient : Address) :
    Except ContractError MedicalRecord :=
  if ¬hasAccessCheck s sender patient then .error .AccessDenied
  else if ¬(s.patientRecords patient).recExists then .error .NotFound
  else .ok (s.patientRecords patient)

/-- `accessMedicalRecord(_patient)`: the logged read — modifiers
`hasAccess(_patient)` then `patientExists(_patient)`, in that order; emits
`RecordAccessed` only when `msg.sender != _patient`, and returns the record. -/
def accessMedicalRecord (s : ContractState) (sender patient : Address)
    (blockTimestamp : Nat) :
    Except ContractError (MedicalRecord × ContractState) :=
  if ¬hasAccessCheck s sender patient then .error .AccessDenied
  else if ¬(s.patientRecords patient).recExists then .error .NotFound
  else .ok (s.patientRecords patient,
    if sender ≠ patient then
      { s with events := s.events ++
          [Event.RecordAccessed patient sender blockTimestamp] }
    else s)

/-- `checkAccess(_patient, _doctor)`: returns the stored `granted` flag. -/
def checkAccess (s : ContractState) (patient doctor : Address) : Bool :=
  (s.doctorAccess patient doctor).granted

/-- `getAuthorizedDoctors(_patient)`: modifier `onlyPatient(_patient)`
(requires `msg.sender == _patient`), then returns `patientDoctors[_patient]`. -/
def getAuthorizedDoctors (s : ContractState) (sender patient : Address) :
    Except ContractError (List Address) :=
  if sender ≠ patient then .error .OnlyPatient
  else .ok (s.patientDoctors patient)

/-- `recordExists(_patient)`. -/
def recordExists (s : ContractState) (patient : Address) : Bool :=
  (s.patientRecords patient).recExists

/-- One external call to the contract, with its sender and block timestamp. -/
inductive Op where
  | addRecord (sender : Address) (name : String) (age : Nat)
      (medicalHistory ipfsHash : String) (time : Nat)
  | grant (sender doctor : Address) (time : Nat)
  | revoke (sender doctor : Address) (time : Nat)
  | readRec (sender patient : Address) (time : Nat)
  | getRec (sender patient : Address)

/-- The state produced by a call when it does not revert (`view` calls return
the unchanged state). -/
def opResult (s : ContractState) : Op → Except ContractError ContractState
  | .addRecord se n a h i t => addMedicalRecord s se n a h i t
  | .grant se d t => grantAccess s se d t
  | .revoke se d t => revokeAccess s se d t
  | .readRec se p t => (accessMedicalRecord s se p t).map (fun r => r.2)
  | .getRec se p => (getMedicalRecord s se p).map (fun _ => s)

/-- EVM transaction semantics: a revert (`Except.error`) rolls the whole call
back, so the pre-state is kept. -/
def applyOp (s : ContractState) (op : Op) : ContractState :=
  match opResult s op with
  | .ok st => st
  | .error _ => s

/-- Run a call sequence against a freshly deployed contract. -/
def execOps (ops : List Op) : ContractState :=
  ops.foldl applyOp initialState

/-- A storage state that some call sequence can produce. -/
def Reachable (s : ContractState) : Prop :=
  ∃ ops : List Op, s = execOps ops

/-- Modelled from the spec: the `EventLog` component (absent from the source,
where the chain itself orders emitted events) assigns sequence numbers
"strictly increasing, starting at 1", so the event at log position `i`
carries sequence `i + 1`. -/
def eventSeqs (s : ContractState) : List Nat :=
  (List.range s.events.length).map (· + 1)

/-! ## Properties of the swap-and-pop removal -/

theorem getD_concat_length (ys : List Address) (a : Address) :
    (ys ++ [a]).getD ys.length 0 = a := by
  induction ys with
  | nil => rfl
  | cons y ys ih => exact ih

theorem firstIndexOf_mem {l : List Address} {t : Address} (h : t ∈ l) :
    ∃ j, firstIndexOf l t = some j := by
  induction l with
  | nil => cases h
  | cons x xs ih =>
    by_cases hx : x = t
    · exact ⟨0, by simp [firstIndexOf, hx]⟩
    · have hmem : t ∈ xs := by
        cases h with
        | head => exact absurd rfl hx
        | tail _ h => exact h
      obtain ⟨j, hj⟩ := ih hmem
      exact ⟨j + 1, by simp [firstIndexOf, hx, hj]⟩

theorem swapPopRemove_cons_of_ne {x t : Address} {xs : List Address}
    (hx : x ≠ t) (hmem : t ∈ xs) :
    swapPopRemove (x :: xs) t = x :: swapPopRemove xs t := by
  obtain ⟨j, hj⟩ := firstIndexOf_mem hmem
  have hfi : firstIndexOf (x :: xs) t = some (j + 1) := by
    simp [firstIndexOf, hx, hj]
  obtain ⟨y, ys, rfl⟩ := List.exists_cons_of_ne_nil (List.ne_nil_of_mem hmem)
  have hg : (x :: y :: ys).getD ((x :: y :: ys).length - 1) 0 =
      (y :: ys).getD ((y :: ys).length - 1) 0 := by
    simp
  unfold swapPopRemove
  rw [hfi, hj, hg]
  show ((x :: y :: ys).set (j + 1) ((y :: ys).getD ((y :: ys).length - 1) 0)).dropLast
      = x :: ((y :: ys).set j ((y :: ys).getD ((y :: ys).length - 1) 0)).dropLast
  rw [List.set_cons_succ,
    List.dropLast_cons_of_ne_nil (fun habs => by
      simpa using congrArg List.length habs)]

theorem swapPopRemove_cons_head {t : Address} {ys : List Address} {a : Address} :
    swapPopRemove (t :: (ys ++ [a])) t = a :: ys := by
  have hfi : firstIndexOf (t :: (ys ++ [a])) t = some 0 := by
    simp [firstIndexOf]
  have hg : (t :: (ys ++ [a])).getD ((t :: (ys ++ [a])).length - 1) 0 = a := by
    have h1 : (t :: (ys ++ [a])).length - 1 = ys.length + 1 := by simp
    rw [h1, List.getD_cons_succ]
    exact getD_concat_length ys a
  unfold swapPopRemove
  rw [hfi, hg]
  show ((t :: (ys ++ [a])).set 0 a).dropLast = a :: ys
  rw [List.set_cons_zero,
    List.dropLast_cons_of_ne_nil (by simp), List.dropLast_concat]

theorem swapPopRemove_perm_erase {l : List Address} {t : Address}
    (hnd : l.Nodup) (hmem : t ∈ l) : (swapPopRemove l t).Perm (l.erase t) := by
  induction l with
  | nil => cases hmem
  | cons x xs ih =>
    by_cases hx : x = t
    · subst hx
      rw [List.erase_cons_head]
      rcases xs.eq_nil_or_concat with rfl | ⟨ys, a, rfl⟩
      · simp [swapPopRemove, firstIndexOf]
      · rw [List.concat_eq_append, swapPopRemove_cons_head]
        exact (List.perm_append_singleton a ys).symm
    · have hmem' : t ∈ xs := by
        cases hmem with
        | head => exact absurd rfl hx
        | tail _ h => exact h
      rw [swapPopRemove_cons_of_ne hx hmem',
        List.erase_cons_tail (by simpa using hx)]
      exact (ih (List.nodup_cons.mp hnd).2 hmem').cons x

theorem swapPopRemove_nodup {l : List Address} {t : Address}
    (hnd : l.Nodup) (hmem : t ∈ l) : (swapPopRemove l t).Nodup :=
  (swapPopRemove_perm_erase hnd hmem).nodup_iff.mpr (hnd.erase t)

theorem mem_swapPopRemove_iff {l : List Address} {t : Address}
    (hnd : l.Nodup) (hmem : t ∈ l) (x : Address) :
    x ∈ swapPopRemove l t ↔ x ≠ t ∧ x ∈ l := by
  rw [(swapPopRemove_perm_erase hnd hmem).mem_iff, hnd.mem_erase_iff]

/-! ## The reachable-state invariant

In every state a call sequence can produce: each patient's doctor list has no
duplicates and holds exactly the doctors whose permission entry is granted,
and every granted entry records its own key in the `doctor` field, is neither
a self-grant nor the zero address, and belongs to a patient whose record
exists. -/

def Inv (s : ContractState) : Prop :=
  (∀ p, (s.patientDoctors p).Nodup) ∧
  (∀ p d, d ∈ s.patientDoctors p ↔ (s.doctorAccess p d).granted = true) ∧
  (∀ p d, (s.doctorAccess p d).granted = true →
    (s.doctorAccess p d).doctor = d ∧ d ≠ p ∧ d ≠ 0 ∧
      (s.patientRecords p).recExists = true)

theorem inv_initialState : Inv initialState := by
  refine ⟨fun p => List.nodup_nil, fun p d => ?_, fun p d h => ?_⟩
  · simp [initialState, emptyPermission]
  · simp [initialState, emptyPermission] at h

/-- Success inversion for `addMedicalRecord`: the three validations passed and
the resulting state is the record overwrite plus the emitted event. -/
theorem addMedicalRecord_ok {s s' : ContractState} {sender : Address}
    {name medicalHistory ipfsHash : String} {age blockTimestamp : Nat}
    (h : addMedicalRecord s sender name age medicalHistory ipfsHash
      blockTimestamp = .ok s') :
    name ≠ "" ∧ (0 < age ∧ age < 150) ∧ medicalHistory ≠ "" ∧
    s' = { s with
      patientRecords := fun p =>
        if p = sender then
          { name := name, age := age, medicalHistory := medicalHistory,
            ipfsHash := ipfsHash, timestamp := blockTimestamp,
            recExists := true }
        else s.patientRecords p,
      events := s.events ++
        [Event.MedicalRecordAdded sender name age blockTimestamp] } := by
  unfold addMedicalRecord at h
  split_ifs at h with hq1 hq2 hq3
  injection h with h
  exact ⟨hq1, hq2, hq3, h.symm⟩

/-- Success inversion for `grantAccess`. -/
theorem grantAccess_ok {s s' : ContractState} {sender doctor : Address}
    {blockTimestamp : Nat}
    (h : grantAccess s sender doctor blockTimestamp = .ok s') :
    (s.patientRecords sender).recExists = true ∧ doctor ≠ 0 ∧
    doctor ≠ sender ∧ (s.doctorAccess sender doctor).granted = false ∧
    s' = { s with
      doctorAccess := fun p d =>
        if p = sender ∧ d = doctor then
          { doctor := doctor, granted := true, timestamp := blockTimestamp }
        else s.doctorAccess p d,
      patientDoctors := fun p =>
        if p = sender then s.patientDoctors sender ++ [doctor]
        else s.patientDoctors p,
      events := s.events ++
        [Event.AccessGranted sender doctor blockTimestamp] } := by
  unfold grantAccess at h
  split_ifs at h with hq1 hq2 hq3 hq4 hq5
  injection h with h
  exact ⟨hq2, hq3, hq4, by simpa using hq5, h.symm⟩

/-- Success inversion for `revokeAccess`. -/
theorem revokeAccess_ok {s s' : ContractState} {sender doctor : Address}
    {blockTimestamp : Nat}
    (h : revokeAccess s sender doctor blockTimestamp = .ok s') :
    (s.patientRecords sender).recExists = true ∧
    (s.doctorAccess sender doctor).granted = true ∧
    s' = { s with
      doctorAccess := fun p d =>
        if p = sender ∧ d = doctor then
          { s.doctorAccess sender doctor with granted := false }
        else s.doctorAccess p d,
      patientDoctors := fun p =>
        if p = sender then swapPopRemove (s.patientDoctors sender) doctor
        else s.patientDoctors p,
      events := s.events ++
        [Event.AccessRevoked sender doctor blockTimestamp] } := by
  unfold revokeAccess at h
  split_ifs at h with hq1 hq2 hq3
  injection h with h
  exact ⟨hq2, hq3, h.symm⟩

/-- Success inversion for `accessMedicalRecord`. -/
theorem accessMedicalRecord_ok {s : ContractState} {sender patient : Address}
    {blockTimestamp : Nat} {r : MedicalRecord × ContractState}
    (h : accessMedicalRecord s sender patient blockTimestamp = .ok r) :
    hasAccessCheck s sender patient = true ∧
    (s.patientRecords patient).recExists = true ∧
    r = (s.patientRecords patient,
      if sender ≠ patient then
        { s with events := s.events ++
            [Event.RecordAccessed patient sender blockTimestamp] }
      else s) := by
  unfold accessMedicalRecord at h
  split_ifs at h with hq1 hq2 hsp
  · injection h with h
    rw [if_pos hsp]
    exact ⟨hq1, hq2, h.symm⟩
  · injection h with h
    rw [if_neg hsp]
    exact ⟨hq1, hq2, h.symm⟩

theorem inv_addMedicalRecord {s s' : ContractState} {sender : Address}
    {name medicalHistory ipfsHash : String} {age blockTimestamp : Nat}
    (hInv : Inv s)
    (h : addMedicalRecord s sender name age medicalHistory ipfsHash
      blockTimestamp = .ok s') : Inv s' := by
  obtain ⟨-, -, -, rfl⟩ := addMedicalRecord_ok h
  obtain ⟨h1, h2, h3⟩ := hInv
  refine ⟨h1, h2, fun p d hg => ?_⟩
  obtain ⟨ha, hb, hc, hd⟩ := h3 p d hg
  refine ⟨ha, hb, hc, ?_⟩
  by_cases hp : p = sender <;> simp [hp, hd]

theorem inv_grantAccess {s s' : ContractState} {sender doctor : Address}
    {blockTimestamp : Nat} (hInv : Inv s)
    (h : grantAccess s sender doctor blockTimestamp = .ok s') : Inv s' := by
  obtain ⟨hrec, h0, hself, hgr, rfl⟩ := grantAccess_ok h
  obtain ⟨h1, h2, h3⟩ := hInv
  have hnotmem : doctor ∉ s.patientDoctors sender := fun hm => by
    rw [(h2 sender doctor).mp hm] at hgr
    exact Bool.noConfusion hgr
  refine ⟨fun p => ?_, fun p d => ?_, fun p d hg => ?_⟩
  · dsimp only
    by_cases hp : p = sender
    · rw [if_pos hp, List.nodup_append]
      exact ⟨h1 sender, List.nodup_singleton _, fun a ha hb => by
        rw [List.mem_singleton] at hb; subst hb; exact hnotmem ha⟩
    · rw [if_neg hp]
      exact h1 p
  · dsimp only
    by_cases hp : p = sender
    · rw [if_pos hp]
      by_cases hd : d = doctor
      · have hc : p = sender ∧ d = doctor := ⟨hp, hd⟩
        rw [if_pos hc]
        simp [hd]
      · have hc : ¬(p = sender ∧ d = doctor) := fun hc => hd hc.2
        rw [if_neg hc, List.mem_append, List.mem_singleton]
        simp only [hd, or_false]
        rw [hp]
        exact h2 sender d
    · have hc : ¬(p = sender ∧ d = doctor) := fun hc => hp hc.1
      rw [if_neg hp, if_neg hc]
      exact h2 p d
  · dsimp only at hg ⊢
    by_cases hc : p = sender ∧ d = doctor
    · rw [if_pos hc]
      obtain ⟨hp2, hd2⟩ := hc
      subst hp2
      subst hd2
      exact ⟨rfl, hself, h0, hrec⟩
    · rw [if_neg hc] at hg ⊢
      exact h3 p d hg

theorem inv_revokeAccess {s s' : ContractState} {sender doctor : Address}
    {blockTimestamp : Nat} (hInv : Inv s)
    (h : revokeAccess s sender doctor blockTimestamp = .ok s') : Inv s' := by
  obtain ⟨hrec, hgr, rfl⟩ := revokeAccess_ok h
  obtain ⟨h1, h2, h3⟩ := hInv
  have hmem : doctor ∈ s.patientDoctors sender := (h2 sender doctor).mpr hgr
  refine ⟨fun p => ?_, fun p d => ?_, fun p d hg => ?_⟩
  · dsimp only
    by_cases hp : p = sender
    · rw [if_pos hp]
      exact swapPopRemove_nodup (h1 sender) hmem
    · rw [if_neg hp]
      exact h1 p
  · dsimp only
    by_cases hp : p = sender
    · rw [if_pos hp, mem_swapPopRemove_iff (h1 sender) hmem]
      by_cases hd : d = doctor
      · have hc : p = sender ∧ d = doctor := ⟨hp, hd⟩
        rw [if_pos hc]
        simp [hd]
      · have hc : ¬(p = sender ∧ d = doctor) := fun hc => hd hc.2
        rw [if_neg hc, hp]
        simp only [ne_eq, hd, not_false_iff, true_and]
        exact h2 sender d
    · have hc : ¬(p = sender ∧ d = doctor) := fun hc => hp hc.1
      rw [if_neg hp, if_neg hc]
      exact h2 p d
  · dsimp only at hg ⊢
    by_cases hc : p = sender ∧ d = doctor
    · rw [if_pos hc] at hg
      exact Bool.noConfusion hg
    · rw [if_neg hc] at hg ⊢
      exact h3 p d hg

theorem inv_applyOp (s : ContractState) (op : Op) (hInv : Inv s) :
    Inv (applyOp s op) := by
  cases op with
  | addRecord se n a hh i t =>
    simp only [applyOp, opResult]
    cases hr : addMedicalRecord s se n a hh i t with
    | ok s' => exact inv_addMedicalRecord hInv hr
    | error e => exact hInv
  | grant se d t =>
    simp only [applyOp, opResult]
    cases hr : grantAccess s se d t with
    | ok s' => exact inv_grantAccess hInv hr
    | error e => exact hInv
  | revoke se d t =>
    simp only [applyOp, opResult]
    cases hr : revokeAccess s se d t with
    | ok s' => exact inv_revokeAccess hInv hr
    | error e => exact hInv
  | readRec se p t =>
    simp only [applyOp, opResult]
    cases hr : accessMedicalRecord s se p t with
    | ok r =>
      obtain ⟨-, -, rfl⟩ := accessMedicalRecord_ok hr
      by_cases hsp : se ≠ p
      · simp only [if_pos hsp, Except.map]
        exact ⟨hInv.1, hInv.2.1, hInv.2.2⟩
      · simp only [if_neg hsp, Except.map]
        exact hInv
    | error e => exact hInv
  | getRec se p =>
    simp only [applyOp, opResult]
    cases hr : getMedicalRecord s se p with
    | ok r => exact hInv
    | error e => exact hInv

theorem inv_foldl (l : List Op) :
    ∀ s : ContractState, Inv s → Inv (l.foldl applyOp s) := by
  induction l with
  | nil => intro s h; exact h
  | cons op l ih => intro s h; exact ih _ (inv_applyOp s op h)

/-- Every reachable state satisfies the invariant. -/
theorem reachable_inv {s : ContractState} (h : Reachable s) : Inv s := by
  obtain ⟨ops, rfl⟩ := h
  exact inv_foldl ops initialState inv_initialState

theorem isOkB_eq_true {α : Type} {e : Except ContractError α} :
    isOkB e = true ↔ ∃ v, e = .ok v := by
  cases e with
  | ok v => simp [isOkB]
  | error e => simp [isOkB]

theorem applyOp_ok (s : ContractState) (op : Op) (s' : ContractState)
    (h : opResult s op = .ok s') : applyOp s op = s' := by
  unfold applyOp
  rw [h]

/-- In a reachable state the `hasAccess` modifier passes exactly when the
caller is the patient or `checkAccess` reports a grant (the extra
`doctor == msg.sender` conjunct of the modifier is redundant there, since
every granted entry stores its own key). -/
theorem hasAccessCheck_iff {s : ContractState} (hInv : Inv s)
    (C P : Address) :
    hasAccessCheck s C P = true ↔ (C = P ∨ checkAccess s P C = true) := by
  unfold hasAccessCheck checkAccess
  simp only [Bool.or_eq_true, beq_iff_eq, Bool.and_eq_true]
  constructor
  · rintro (h | ⟨hg, -⟩)
    · exact Or.inl h
    · exact Or.inr hg
  · rintro (h | hg)
    · exact Or.inl h
    · exact Or.inr ⟨hg, by rw [(hInv.2.2 P C hg).1]⟩

/-- A sample call sequence: patient `1` creates a record, grants doctors `2`
and `3`.  Used to instantiate the hypothesised theorems at concrete inputs. -/
def sampleOps : List Op :=
  [.addRecord 1 "Jane Doe" 40 "Asthma" "" 0, .grant 1 2 1, .grant 1 3 2]

def sampleState : ContractState := execOps sampleOps

/-! ## Claim theorems -/

/-- C8: in every reachable state, a doctor is in the patient's DoctorList
exactly when the (patient, doctor) permission entry has `granted = true` —
the derived list is consistent with (and derivable from) the permission
map. -/
theorem doctorList_consistent_with_permissions (s : ContractState)
    (hs : Reachable s) :
    ∀ P D : Address,
      D ∈ s.patientDoctors P ↔ (s.doctorAccess P D).granted = true :=
  (reachable_inv hs).2.1

theorem doctorList_consistent_with_permissions_witness :
    Reachable sampleState ∧
      ((2 : Address) ∈ sampleState.patientDoctors 1 ↔
        (sampleState.doctorAccess 1 2).granted = true) :=
  ⟨⟨sampleOps, rfl⟩,
    doctorList_consistent_with_permissions sampleState ⟨sampleOps, rfl⟩ 1 2⟩

/-- C9: a call that reverts with any error leaves the whole state — record
map, permission map, doctor lists and event log — unchanged; only a
successful call commits its mutation together with its event.  (This is the
transaction semantics of `require`: `applyOp` keeps the pre-state whenever
`opResult` is an error.) -/
theorem failed_op_leaves_state_unchanged (s : ContractState) (op : Op)
    (e : ContractError) (h : opResult s op = .error e) : applyOp s op = s := by
  unfold applyOp
  rw [h]

theorem failed_op_leaves_state_unchanged_witness :
    opResult sampleState (Op.grant 1 2 5) = .error .AlreadyGranted ∧
      applyOp sampleState (Op.grant 1 2 5) = sampleState :=
  ⟨rfl, failed_op_leaves_state_unchanged sampleState (Op.grant 1 2 5)
    .AlreadyGranted rfl⟩

/-- C10: `getMedicalRecord` is a second read path with the same `hasAccess`
modifier as the logged `accessMedicalRecord`, but it is a `view` function
and emits nothing: in the concrete execution below doctor `2` (granted,
distinct from patient `1`) successfully reads patient `1`'s record through
it and the event log is left unchanged — an audit-trail bypass. -/
theorem getMedicalRecord_bypasses_audit_trail :
    checkAccess sampleState 1 2 = true ∧ (2 : Address) ≠ 1 ∧
    isOkB (getMedicalRecord sampleState 2 1) = true ∧
    (applyOp sampleState (.getRec 2 1)).events = sampleState.events := by
  refine ⟨by decide, by decide, by decide, rfl⟩

/-- C1 (counterexample): after patient `1` grants doctors `2`, `3`, `4` (in
that order) and revokes `2`, `getAuthorizedDoctors` returns `[4, 3]` — the
swap-and-pop removal moved the last entry into the removed slot, so the
relative order of `3` and `4` is flipped and the list is no longer in grant
order. -/
theorem revoke_not_order_preserving :
    getAuthorizedDoctors (execOps [.addRecord 1 "A" 30 "H" "" 0,
      .grant 1 2 1, .grant 1 3 2, .grant 1 4 3, .revoke 1 2 4]) 1 1
        = .ok [4, 3] ∧
    ((4 : Address) :: [3]) ≠ [3, 4] ∧
    (2 : Address) ∉ ([4, 3] : List Address) := by
  refine ⟨rfl, by decide, by decide⟩

/-- C1 (amended): `getAuthorizedDoctors(P)` (caller `P`) returns the stored
DoctorList; a successful grant appends the doctor at the end, so the list is
in grant order as long as no revoke intervenes; a successful revoke removes
the doctor by swap-and-pop, which preserves the multiset of the remaining
entries (a permutation of ordinary removal) but not necessarily their
relative order. -/
theorem doctorList_grant_append_revoke_swap_pop (s : ContractState)
    (hs : Reachable s) (P D : Address) (t : Nat) :
    getAuthorizedDoctors s P P = .ok (s.patientDoctors P) ∧
    (isOkB (grantAccess s P D t) = true →
      (applyOp s (.grant P D t)).patientDoctors P
        = s.patientDoctors P ++ [D]) ∧
    (isOkB (revokeAccess s P D t) = true →
      ((applyOp s (.revoke P D t)).patientDoctors P).Perm
          ((s.patientDoctors P).erase D) ∧
        D ∉ (applyOp s (.revoke P D t)).patientDoctors P) := by
  obtain ⟨h1, h2, h3⟩ := reachable_inv hs
  refine ⟨?_, ?_, ?_⟩
  · unfold getAuthorizedDoctors
    rw [if_neg (fun hh => hh rfl)]
  · intro h
    obtain ⟨s', hr⟩ := isOkB_eq_true.mp h
    obtain ⟨-, -, -, -, rfl⟩ := grantAccess_ok hr
    rw [applyOp_ok s (.grant P D t) _ hr]
    dsimp only
    rw [if_pos rfl]
  · intro h
    obtain ⟨s', hr⟩ := isOkB_eq_true.mp h
    obtain ⟨-, hgr, rfl⟩ := revokeAccess_ok hr
    have hmem : D ∈ s.patientDoctors P := (h2 P D).mpr hgr
    rw [applyOp_ok s (.revoke P D t) _ hr]
    dsimp only
    rw [if_pos rfl]
    refine ⟨swapPopRemove_perm_erase (h1 P) hmem, ?_⟩
    rw [mem_swapPopRemove_iff (h1 P) hmem]
    rintro ⟨hne, -⟩
    exact hne rfl

theorem doctorList_grant_append_revoke_swap_pop_witness :
    Reachable sampleState ∧
    (getAuthorizedDoctors sampleState 1 1
        = .ok (sampleState.patientDoctors 1) ∧
      (isOkB (grantAccess sampleState 1 4 9) = true →
        (applyOp sampleState (.grant 1 4 9)).patientDoctors 1
          = sampleState.patientDoctors 1 ++ [4]) ∧
      (isOkB (revokeAccess sampleState 1 4 9) = true →
        ((applyOp sampleState (.revoke 1 4 9)).patientDoctors 1).Perm
            ((sampleState.patientDoctors 1).erase 4) ∧
          (4 : Address) ∉ (applyOp sampleState (.revoke 1 4 9)).patientDoctors 1)) :=
  ⟨⟨sampleOps, rfl⟩,
    doctorList_grant_append_revoke_swap_pop sampleState ⟨sampleOps, rfl⟩ 1 4 9⟩

/-- C5: a successful `accessMedicalRecord` appends a `RecordAccessed` event
exactly when the caller is not the patient: third-party reads are logged,
self-reads are not. -/
theorem third_party_read_logged_self_read_not (s : ContractState)
    (C P : Address) (t : Nat)
    (h : isOkB (accessMedicalRecord s C P t) = true) :
    (C ≠ P → (applyOp s (.readRec C P t)).events
        = s.events ++ [Event.RecordAccessed P C t]) ∧
    (C = P → (applyOp s (.readRec C P t)).events = s.events) := by
  obtain ⟨r, hr⟩ := isOkB_eq_true.mp h
  obtain ⟨-, -, rfl⟩ := accessMedicalRecord_ok hr
  have hres : opResult s (.readRec C P t) = .ok
      (if C ≠ P then
        { s with events := s.events ++ [Event.RecordAccessed P C t] }
      else s) := by
    simp only [opResult, hr, Except.map]
  have happ := applyOp_ok s (.readRec C P t) _ hres
  constructor
  · intro hne
    rw [happ, if_pos hne]
  · intro heq
    rw [happ, if_neg (fun hne => hne heq)]

theorem third_party_read_logged_witness :
    isOkB (accessMedicalRecord sampleState 2 1 7) = true ∧
      ((2 : Address) ≠ 1 →
        (applyOp sampleState (.readRec 2 1 7)).events
          = sampleState.events ++ [Event.RecordAccessed 1 2 7]) ∧
      ((2 : Address) = 1 →
        (applyOp sampleState (.readRec 2 1 7)).events = sampleState.events) :=
  ⟨by decide, third_party_read_logged_self_read_not sampleState 2 1 7 (by decide)⟩

/-- C6: `addMedicalRecord` fails with `ValidationError` exactly when the name
is empty, the medical history is empty, or the age lies outside `1..149`;
on success it overwrites the caller's single record slot with the given
fields (creating it if absent) and leaves every other patient's record
unchanged. -/
theorem upsert_validation_and_overwrite (s : ContractState) (sender : Address)
    (name : String) (age : Nat) (medicalHistory ipfsHash : String) (t : Nat) :
    (addMedicalRecord s sender name age medicalHistory ipfsHash t
        = .error .ValidationError
      ↔ (name = "" ∨ medicalHistory = "" ∨ age < 1 ∨ 149 < age)) ∧
    (isOkB (addMedicalRecord s sender name age medicalHistory ipfsHash t)
        = true →
      (applyOp s (.addRecord sender name age medicalHistory ipfsHash t)).patientRecords
          sender
        = { name := name, age := age, medicalHistory := medicalHistory,
            ipfsHash := ipfsHash, timestamp := t, recExists := true } ∧
      ∀ q, q ≠ sender →
        (applyOp s (.addRecord sender name age medicalHistory ipfsHash t)).patientRecords
            q
          = s.patientRecords q) := by
  constructor
  · by_cases h1 : name = ""
    · unfold addMedicalRecord
      rw [if_pos h1]
      exact iff_of_true rfl (Or.inl h1)
    · by_cases h2 : 0 < age ∧ age < 150
      · by_cases h3 : medicalHistory = ""
        · unfold addMedicalRecord
          rw [if_neg h1, if_neg (not_not_intro h2), if_pos h3]
          exact iff_of_true rfl (Or.inr (Or.inl h3))
        · unfold addMedicalRecord
          rw [if_neg h1, if_neg (not_not_intro h2), if_neg h3]
          refine iff_of_false (fun hc => Except.noConfusion hc) ?_
          rintro (hc | hc | hc | hc)
          · exact h1 hc
          · exact h3 hc
          · omega
          · omega
      · unfold addMedicalRecord
        rw [if_neg h1, if_pos h2]
        exact iff_of_true rfl (Or.inr (Or.inr (by omega)))
  · intro h
    obtain ⟨s', hr⟩ := isOkB_eq_true.mp h
    obtain ⟨-, -, -, rfl⟩ := addMedicalRecord_ok hr
    rw [applyOp_ok s (.addRecord sender name age medicalHistory ipfsHash t) _ hr]
    dsimp only
    refine ⟨by rw [if_pos rfl], fun q hq => by rw [if_neg hq]⟩

theorem upsert_validation_witness :
    (addMedicalRecord initialState 1 "Jane Doe" 40 "Asthma" "" 0
        = .error .ValidationError
      ↔ (("Jane Doe" : String) = "" ∨ ("Asthma" : String) = ""
          ∨ (40 : Nat) < 1 ∨ (149 : Nat) < 40)) ∧
    (isOkB (addMedicalRecord initialState 1 "Jane Doe" 40 "Asthma" "" 0)
        = true →
      (applyOp initialState (.addRecord 1 "Jane Doe" 40 "Asthma" "" 0)).patientRecords 1
        = { name := "Jane Doe", age := 40, medicalHistory := "Asthma",
            ipfsHash := "", timestamp := 0, recExists := true } ∧
      ∀ q, q ≠ 1 →
        (applyOp initialState (.addRecord 1 "Jane Doe" 40 "Asthma" "" 0)).patientRecords q
          = initialState.patientRecords q) :=
  upsert_validation_and_overwrite initialState 1 "Jane Doe" 40 "Asthma" "" 0

/-- Which calls the spec counts as successful mutations: any non-reverting
`addMedicalRecord`, `grantAccess` or `revokeAccess`, and a non-reverting
third-party `accessMedicalRecord` (a self-read mutates nothing); the `view`
function `getMedicalRecord` never mutates. -/
def MutatingSuccess (s : ContractState) : Op → Prop
  | .addRecord se n a h i t => isOkB (addMedicalRecord s se n a h i t) = true
  | .grant se d t => isOkB (grantAccess s se d t) = true
  | .revoke se d t => isOkB (revokeAccess s se d t) = true
  | .readRec se p t => se ≠ p ∧ isOkB (accessMedicalRecord s se p t) = true
  | .getRec _ _ => False

theorem eventSeqs_append_one {s s' : ContractState} {e : Event}
    (h : s'.events = s.events ++ [e]) :
    eventSeqs s' = eventSeqs s ++ [s.events.length + 1] := by
  unfold eventSeqs
  rw [h, List.length_append, List.length_singleton, List.range_succ,
    List.map_append]
  simp

theorem mem_eventSeqs_lt (s : ContractState) :
    ∀ q ∈ eventSeqs s, q < s.events.length + 1 := by
  intro q hq
  unfold eventSeqs at hq
  simp only [List.mem_map, List.mem_range] at hq
  obtain ⟨i, hi, rfl⟩ := hq
  omega

/-- C7: every successful mutating call appends exactly one event, and (with
the spec's sequence numbering, position + 1) the new event's sequence is
`|log| + 1`, strictly greater than every previously assigned sequence; the
numbering starts at 1 on the first append. -/
theorem mutation_appends_one_event_increasing_seq (s : ContractState)
    (op : Op) (h : MutatingSuccess s op) :
    ∃ e : Event, (applyOp s op).events = s.events ++ [e] ∧
      eventSeqs (applyOp s op) = eventSeqs s ++ [s.events.length + 1] ∧
      ∀ q ∈ eventSeqs s, q < s.events.length + 1 := by
  have key : ∃ e : Event, (applyOp s op).events = s.events ++ [e] := by
    cases op with
    | addRecord se n a hh i t =>
      obtain ⟨s', hr⟩ := isOkB_eq_true.mp h
      obtain ⟨-, -, -, rfl⟩ := addMedicalRecord_ok hr
      rw [applyOp_ok s (.addRecord se n a hh i t) _ hr]
      exact ⟨_, rfl⟩
    | grant se d t =>
      obtain ⟨s', hr⟩ := isOkB_eq_true.mp h
      obtain ⟨-, -, -, -, rfl⟩ := grantAccess_ok hr
      rw [applyOp_ok s (.grant se d t) _ hr]
      exact ⟨_, rfl⟩
    | revoke se d t =>
      obtain ⟨s', hr⟩ := isOkB_eq_true.mp h
      obtain ⟨-, -, rfl⟩ := revokeAccess_ok hr
      rw [applyOp_ok s (.revoke se d t) _ hr]
      exact ⟨_, rfl⟩
    | readRec se p t =>
      obtain ⟨hne, hok⟩ := h
      obtain ⟨r, hr⟩ := isOkB_eq_true.mp hok
      obtain ⟨-, -, rfl⟩ := accessMedicalRecord_ok hr
      have hres : opResult s (.readRec se p t) = .ok
          (if se ≠ p then
            { s with events := s.events ++ [Event.RecordAccessed p se t] }
          else s) := by
        simp only [opResult, hr, Except.map]
      rw [applyOp_ok s (.readRec se p t) _ hres, if_pos hne]
      exact ⟨_, rfl⟩
    | getRec se p => exact h.elim
  obtain ⟨e, he⟩ := key
  exact ⟨e, he, eventSeqs_append_one he, mem_eventSeqs_lt s⟩

theorem mutation_appends_one_event_witness :
    MutatingSuccess sampleState (Op.grant 1 4 9) ∧
      ∃ e : Event,
        (applyOp sampleState (Op.grant 1 4 9)).events
            = sampleState.events ++ [e] ∧
          eventSeqs (applyOp sampleState (Op.grant 1 4 9))
            = eventSeqs sampleState ++ [sampleState.events.length + 1] ∧
          ∀ q ∈ eventSeqs sampleState, q < sampleState.events.length + 1 :=
  ⟨rfl,
    mutation_appends_one_event_increasing_seq sampleState (Op.grant 1 4 9)
      rfl⟩

theorem amr_denied {s : ContractState} {C P : Address} {t : Nat}
    (h : hasAccessCheck s C P = false) :
    accessMedicalRecord s C P t = .error .AccessDenied := by
  simp [accessMedicalRecord, h]

theorem amr_notfound {s : ContractState} {C P : Address} {t : Nat}
    (h1 : hasAccessCheck s C P = true)
    (h2 : (s.patientRecords P).recExists = false) :
    accessMedicalRecord s C P t = .error .NotFound := by
  simp [accessMedicalRecord, h1, h2]

theorem amr_ok {s : ContractState} {C P : Address} {t : Nat}
    (h1 : hasAccessCheck s C P = true)
    (h2 : (s.patientRecords P).recExists = true) :
    accessMedicalRecord s C P t = .ok (s.patientRecords P,
      if C ≠ P then
        { s with events := s.events ++ [Event.RecordAccessed P C t] }
      else s) := by
  simp [accessMedicalRecord, h1, h2]

/-- C2 (counterexample): on a fresh contract, a patient reading their own
record (`caller = patient = 1`, so the claim's authorization condition
holds) does not succeed: the call fails with `NotFound` because no record
exists, so "succeeds exactly when `C = P` or `check(P, C)`" is false. -/
theorem self_read_without_record_fails :
    accessMedicalRecord initialState 1 1 0 = .error .NotFound ∧
    ((1 : Address) = 1 ∨ checkAccess initialState 1 1 = true) :=
  ⟨rfl, Or.inl rfl⟩

/-- C2 (amended): in every reachable state, `accessMedicalRecord(C, P)`
fails with `AccessDenied` exactly when neither `C = P` nor
`checkAccess(P, C)`; when authorized it succeeds exactly when `P` has a
record, failing with `NotFound` otherwise; and when both `AccessDenied`
and `NotFound` apply, `AccessDenied` is the error returned (the
`hasAccess` modifier runs before `patientExists`). -/
theorem read_access_denied_precedence (s : ContractState) (hs : Reachable s)
    (C P : Address) (t : Nat) :
    ((accessMedicalRecord s C P t = .error .AccessDenied)
      ↔ ¬(C = P ∨ checkAccess s P C = true)) ∧
    ((C = P ∨ checkAccess s P C = true) →
      ((isOkB (accessMedicalRecord s C P t) = true
          ↔ (s.patientRecords P).recExists = true) ∧
        ((s.patientRecords P).recExists = false →
          accessMedicalRecord s C P t = .error .NotFound))) ∧
    (¬(C = P ∨ checkAccess s P C = true) →
      (s.patientRecords P).recExists = false →
      accessMedicalRecord s C P t = .error .AccessDenied) := by
  have hInv := reachable_inv hs
  have hiff := hasAccessCheck_iff hInv C P
  refine ⟨?_, ?_, ?_⟩
  · rw [← hiff]
    cases hac : hasAccessCheck s C P with
    | false =>
      exact iff_of_true (amr_denied hac) (by simp)
    | true =>
      refine iff_of_false (fun hc => ?_) (by simp)
      cases hre : (s.patientRecords P).recExists with
      | false =>
        rw [amr_notfound hac hre] at hc
        injection hc with hc
        exact ContractError.noConfusion hc
      | true =>
        rw [amr_ok hac hre] at hc
        exact Except.noConfusion hc
  · intro hauth
    have hac : hasAccessCheck s C P = true := hiff.mpr hauth
    cases hre : (s.patientRecords P).recExists with
    | false =>
      refine ⟨iff_of_false ?_ (by simp [hre]), fun _ => amr_notfound hac hre⟩
      rw [amr_notfound hac hre]
      simp [isOkB]
    | true =>
      refine ⟨iff_of_true ?_ rfl, fun hfalse => ?_⟩
      · rw [amr_ok hac hre]
        rfl
      · exact Bool.noConfusion hfalse
  · intro hn _
    exact (amr_denied (by
      cases hac : hasAccessCheck s C P with
      | false => rfl
      | true => exact absurd (hiff.mp hac) hn))

theorem read_access_denied_precedence_witness :
    Reachable sampleState ∧
    (((accessMedicalRecord sampleState 2 1 7 = .error .AccessDenied)
        ↔ ¬((2 : Address) = 1 ∨ checkAccess sampleState 1 2 = true)) ∧
      (((2 : Address) = 1 ∨ checkAccess sampleState 1 2 = true) →
        ((isOkB (accessMedicalRecord sampleState 2 1 7) = true
            ↔ (sampleState.patientRecords 1).recExists = true) ∧
          ((sampleState.patientRecords 1).recExists = false →
            accessMedicalRecord sampleState 2 1 7 = .error .NotFound))) ∧
      (¬((2 : Address) = 1 ∨ checkAccess sampleState 1 2 = true) →
        (sampleState.patientRecords 1).recExists = false →
        accessMedicalRecord sampleState 2 1 7 = .error .AccessDenied)) :=
  ⟨⟨sampleOps, rfl⟩,
    read_access_denied_precedence sampleState ⟨sampleOps, rfl⟩ 2 1 7⟩

/-- C3: for a nonzero patient who owns a record (the gateway's ownership
precondition, which the contract checks first and reports as `NotFound`),
`grantAccess` fails with `InvalidDoctor` on a self-grant and with
`AlreadyGranted` when the entry is already granted; on success the entry is
granted with `grantedAt` set to the call's timestamp, `checkAccess` becomes
true, and the doctor appears exactly once in the DoctorList. -/
theorem grant_errors_and_postconditions (s : ContractState)
    (hs : Reachable s) (P D : Address) (t : Nat)
    (hrec : (s.patientRecords P).recExists = true) (hP : P ≠ 0) :
    (D = P → grantAccess s P D t = .error .InvalidDoctor) ∧
    ((s.doctorAccess P D).granted = true →
      grantAccess s P D t = .error .AlreadyGranted) ∧
    (isOkB (grantAccess s P D t) = true →
      ((applyOp s (.grant P D t)).doctorAccess P D).granted = true ∧
      ((applyOp s (.grant P D t)).doctorAccess P D).timestamp = t ∧
      checkAccess (applyOp s (.grant P D t)) P D = true ∧
      ((applyOp s (.grant P D t)).patientDoctors P).count D = 1) := by
  obtain ⟨h1, h2, h3⟩ := reachable_inv hs
  refine ⟨?_, ?_, ?_⟩
  · intro hDP
    unfold grantAccess
    rw [if_neg (fun hh => hh rfl), if_neg (not_not_intro hrec),
      if_neg (fun h0 => hP (hDP.symm.trans h0)), if_pos hDP]
  · intro hgr
    obtain ⟨-, hdp, hd0, -⟩ := h3 P D hgr
    unfold grantAccess
    rw [if_neg (fun hh => hh rfl), if_neg (not_not_intro hrec),
      if_neg hd0, if_neg hdp, if_pos hgr]
  · intro h
    obtain ⟨s', hr⟩ := isOkB_eq_true.mp h
    obtain ⟨-, -, -, hgrf, rfl⟩ := grantAccess_ok hr
    have hcond : P = P ∧ D = D := ⟨rfl, rfl⟩
    have hnm : (s.patientDoctors P).count D = 0 :=
      List.count_eq_zero.mpr (fun hm => by
        rw [(h2 P D).mp hm] at hgrf
        exact Bool.noConfusion hgrf)
    rw [applyOp_ok s (.grant P D t) _ hr]
    refine ⟨?_, ?_, ?_, ?_⟩
    · dsimp only
      rw [if_pos hcond]
    · dsimp only
      rw [if_pos hcond]
    · unfold checkAccess
      dsimp only
      rw [if_pos hcond]
    · dsimp only
      rw [if_pos rfl, List.count_append, hnm]
      simp

theorem grant_errors_witness :
    (sampleState.patientRecords 1).recExists = true ∧ (1 : Address) ≠ 0 ∧
    (((1 : Address) = 1 → grantAccess sampleState 1 1 9 = .error .InvalidDoctor) ∧
      ((sampleState.doctorAccess 1 1).granted = true →
        grantAccess sampleState 1 1 9 = .error .AlreadyGranted) ∧
      (isOkB (grantAccess sampleState 1 1 9) = true →
        ((applyOp sampleState (.grant 1 1 9)).doctorAccess 1 1).granted = true ∧
        ((applyOp sampleState (.grant 1 1 9)).doctorAccess 1 1).timestamp = 9 ∧
        checkAccess (applyOp sampleState (.grant 1 1 9)) 1 1 = true ∧
        ((applyOp sampleState (.grant 1 1 9)).patientDoctors 1).count 1 = 1)) :=
  ⟨by decide, by decide,
    grant_errors_and_postconditions sampleState ⟨sampleOps, rfl⟩ 1 1 9
      (by decide) (by decide)⟩

/-- C4: for a patient who owns a record (the gateway's ownership
precondition, checked first and reported as `NotFound`), `revokeAccess`
fails with `NotGranted` exactly when the (patient, doctor) entry is not
granted (in the mapping model "no entry" is the default entry with
`granted = false`); after a successful revoke, `checkAccess` is false and
the doctor is absent from the DoctorList. -/
theorem revoke_errors_and_postconditions (s : ContractState)
    (hs : Reachable s) (P D : Address) (t : Nat)
    (hrec : (s.patientRecords P).recExists = true) :
    ((revokeAccess s P D t = .error .NotGranted)
      ↔ (s.doctorAccess P D).granted = false) ∧
    (isOkB (revokeAccess s P D t) = true →
      checkAccess (applyOp s (.revoke P D t)) P D = false ∧
      D ∉ (applyOp s (.revoke P D t)).patientDoctors P) := by
  obtain ⟨h1, h2, h3⟩ := reachable_inv hs
  refine ⟨?_, ?_⟩
  · cases hgr : (s.doctorAccess P D).granted with
    | false =>
      refine iff_of_true ?_ rfl
      unfold revokeAccess
      rw [if_neg (fun hh => hh rfl), if_neg (not_not_intro hrec),
        if_pos (by simp [hgr])]
    | true =>
      refine iff_of_false (fun hc => ?_) (fun hc => Bool.noConfusion hc)
      unfold revokeAccess at hc
      rw [if_neg (fun hh => hh rfl), if_neg (not_not_intro hrec),
        if_neg (not_not_intro hgr)] at hc
      exact Except.noConfusion hc
  · intro h
    obtain ⟨s', hr⟩ := isOkB_eq_true.mp h
    obtain ⟨-, hgr, rfl⟩ := revokeAccess_ok hr
    have hmem : D ∈ s.patientDoctors P := (h2 P D).mpr hgr
    rw [applyOp_ok s (.revoke P D t) _ hr]
    constructor
    · unfold checkAccess
      dsimp only
      rw [if_pos (⟨rfl, rfl⟩ : P = P ∧ D = D)]
    · dsimp only
      rw [if_pos rfl, mem_swapPopRemove_iff (h1 P) hmem]
      rintro ⟨hne, -⟩
      exact hne rfl

theorem revoke_errors_witness :
    (sampleState.patientRecords 1).recExists = true ∧
    (((revokeAccess sampleState 1 2 9 = .error .NotGranted)
        ↔ (sampleState.doctorAccess 1 2).granted = false) ∧
      (isOkB (revokeAccess sampleState 1 2 9) = true →
        checkAccess (applyOp sampleState (.revoke 1 2 9)) 1 2 = false ∧
        (2 : Address) ∉ (applyOp sampleState (.revoke 1 2 9)).patientDoctors 1)) :=
  ⟨by decide,
    revoke_errors_and_postconditions sampleState ⟨sampleOps, rfl⟩ 1 2 9
      (by decide)⟩

end PatientData
